import Mathlib

set_option autoImplicit false
set_option maxHeartbeats 1000000

/-!
Shallow embedding of the voice-note batch pipeline (src/main.py).

The filesystem is an association list of regular files (path, content);
directories exist implicitly as path prefixes.  The three external
collaborators (the audio codec, the hosted transcription service and the
hosted completion service) are parameters of the model, given as functions
from content to an optional result (none models the collaborator raising).
Thread-pool execution is modelled as a serialized execution of the
submitted tasks in an arbitrary completion order, with results gathered
in submission order, matching the executor semantics of the source
(the with-block waits for all submitted futures, and results are read by
iterating the futures list in submission order).
-/

/-- Python str.replace core: scan left to right, replace each non-overlapping
occurrence of pat; the Nat argument counts pattern characters still to skip
after a match (the first matched character is consumed by the cons). -/
def replCore (pat rep : List Char) : Nat → List Char → List Char
  | _, [] => []
  | Nat.succ k, _ :: cs => replCore pat rep k cs
  | 0, c :: cs =>
    if pat.isPrefixOf (c :: cs) then rep ++ replCore pat rep (pat.length - 1) cs
    else c :: replCore pat rep 0 cs

/-- Python str.replace (all occurrences, left to right, non-overlapping). -/
def pyReplace (s pat rep : String) : String :=
  String.mk (replCore pat.data rep.data 0 s.data)

/-- Python str.endswith. -/
def pyEndsWith (s suf : String) : Bool :=
  suf.data.isSuffixOf s.data

/-- Python str.strip (drop whitespace from both ends). -/
def pyStrip (s : String) : String :=
  String.mk (((s.data.dropWhile Char.isWhitespace).reverse.dropWhile Char.isWhitespace).reverse)

/-- os.path.join for a directory and a relative name (posix separator). -/
def pathJoin (d n : String) : String := d ++ "/" ++ n

/-- os.path.basename: the component after the last separator. -/
def basename (p : String) : String :=
  String.mk ((p.data.reverse.takeWhile (fun c => c != '/')).reverse)

/-- Whether path p lies (at any depth) under directory d. -/
def underDir (d p : String) : Bool :=
  (d ++ "/").data.isPrefixOf p.data

/-- The filesystem: a finite map from path to content, one entry per regular file. -/
abbrev FS := List (String × String)

/-- Read a regular file (open(p).read() / the os.path.exists check). -/
def FS.read : FS → String → Option String
  | [], _ => none
  | (q, c) :: fs, p => if q = p then some c else FS.read fs p

/-- os.remove. -/
def FS.remove : FS → String → FS
  | [], _ => []
  | (q, c) :: fs, p => if q = p then FS.remove fs p else (q, c) :: FS.remove fs p

/-- open(p, w).write(c): create or overwrite. -/
def FS.write (fs : FS) (p c : String) : FS :=
  (p, c) :: FS.remove fs p

/-- The immediate child name of directory d on the way to path p, if p is
under d (os.listdir sees exactly these names). -/
def childName (d p : String) : Option String :=
  if (d ++ "/").data.isPrefixOf p.data then
    let rest := p.data.drop (d ++ "/").data.length
    if rest.isEmpty then none
    else some (String.mk (rest.takeWhile (fun c => c != '/')))
  else none

/-- os.listdir d: the distinct immediate child names (files and implicit
subdirectories) of d.  Enumeration order is the entry order of the map,
standing in for the unspecified OS directory order. -/
def listdir (fs : FS) (d : String) : List String :=
  ((fs.map (fun e => e.1)).filterMap (childName d)).dedup

/-- One step of the cleanup loops: if os.path.isfile(join d n): os.remove. -/
def removeIfFile (d : String) (acc : FS) (n : String) : FS :=
  match FS.read acc (pathJoin d n) with
  | some _ => FS.remove acc (pathJoin d n)
  | none => acc

/-- The finalizer cleanup loop over one directory: snapshot the listing,
then delete each immediate child that is a regular file. -/
def clearDir (fs : FS) (d : String) : FS :=
  (listdir fs d).foldl (removeIfFile d) fs

/-- Python "\n\n".join. -/
def sjoin (sep : String) : List String → String
  | [] => ""
  | [t] => t
  | t :: ts => t ++ sep ++ sjoin sep ts

/-- The error taxonomy of the pipeline (nothing is caught anywhere). -/
inductive Err
  | decodeError
  | transcriptionError
  | summaryError
  | fsError
deriving DecidableEq, Repr

deriving instance DecidableEq for Except

/-- The opaque external collaborators: codec, transcription service,
completion service.  Each maps input content to output content, or none
when the collaborator raises. -/
structure Env where
  convert : String → Option String
  transcribe : String → Option String
  summarize : String → Option String

/-- Program state: the filesystem plus invocation logs for the three
collaborators (each log records the inputs handed to that collaborator,
in order). -/
structure St where
  fs : FS
  converted : List String
  transcribed : List String
  summarized : List String
deriving DecidableEq

/-- The three configured directories and the run timestamp prefix
(datetime_prefix is computed once at program start). -/
structure Config where
  incoming : String
  intermediate : String
  output : String
  datetimePrefix : String
deriving DecidableEq

/-- consolidated_transcript_file = join(intermediate_transcripts, "total_transcript.md"). -/
def consolidatedPath (cfg : Config) : String :=
  pathJoin cfg.intermediate "total_transcript.md"

/-- transcript_file = join(output_folder, datetime_prefix + "-transcripts.md"). -/
def transcriptFilePath (cfg : Config) : String :=
  pathJoin cfg.output (cfg.datetimePrefix ++ "-transcripts.md")

/-- summary_action_file = join(output_folder, datetime_prefix + "-summary_action.md"). -/
def summaryActionFilePath (cfg : Config) : String :=
  pathJoin cfg.output (cfg.datetimePrefix ++ "-summary_action.md")

/-- The cache key path used for a path argument p:
join(intermediate_transcripts, basename(p) + ".txt").  Both
transcribe_audio and process_file compute exactly this of their own
argument. -/
def srcCachePath (cfg : Config) (p : String) : String :=
  pathJoin cfg.intermediate (basename p ++ ".txt")

/-- wav_path = file_path.replace(".m4a", ".wav"). -/
def wavPath (p : String) : String := pyReplace p ".m4a" ".wav"

/-- The cache key path actually used on the conversion path: the key of
the converted wav file, not of the source file. -/
def wavCachePath (cfg : Config) (p : String) : String :=
  srcCachePath cfg (wavPath p)

/-- convert_m4a_to_wav: decode the input, write the wav next to it,
return the wav path.  The input file itself is read only. -/
def convert_m4a_to_wav (env : Env) (s : St) (file_path : String) : St × Except Err String :=
  let s1 : St := { s with converted := s.converted ++ [file_path] }
  match FS.read s1.fs file_path with
  | none => (s1, Except.error Err.fsError)
  | some audio =>
    match env.convert audio with
    | none => (s1, Except.error Err.decodeError)
    | some wavData =>
      ({ s1 with fs := FS.write s1.fs (wavPath file_path) wavData },
       Except.ok (wavPath file_path))

/-- transcribe_audio: if the cache file for this path exists, return its
content; otherwise upload to the transcription service, persist the text
under this path's cache key, and return it. -/
def transcribe_audio (env : Env) (cfg : Config) (s : St) (file_path : String) :
    St × Except Err String :=
  let transcript_path := srcCachePath cfg file_path
  match FS.read s.fs transcript_path with
  | some t => (s, Except.ok t)
  | none =>
    let s1 : St := { s with transcribed := s.transcribed ++ [file_path] }
    match FS.read s1.fs file_path with
    | none => (s1, Except.error Err.fsError)
    | some audio =>
      match env.transcribe audio with
      | none => (s1, Except.error Err.transcriptionError)
      | some text =>
        ({ s1 with fs := FS.write s1.fs transcript_path text }, Except.ok text)

/-- process_file: per-file pipeline.  If the cache entry keyed by this
file's own basename exists, return it; otherwise convert, transcribe the
wav, delete the wav, return the text. -/
def process_file (env : Env) (cfg : Config) (s : St) (file_path : String) :
    St × Except Err String :=
  match FS.read s.fs (srcCachePath cfg file_path) with
  | some t => (s, Except.ok t)
  | none =>
    match (convert_m4a_to_wav env s file_path).2 with
    | Except.error e => ((convert_m4a_to_wav env s file_path).1, Except.error e)
    | Except.ok wav_path =>
      match (transcribe_audio env cfg (convert_m4a_to_wav env s file_path).1 wav_path).2 with
      | Except.error e =>
        ((transcribe_audio env cfg (convert_m4a_to_wav env s file_path).1 wav_path).1,
         Except.error e)
      | Except.ok transcription =>
        ({ (transcribe_audio env cfg (convert_m4a_to_wav env s file_path).1 wav_path).1 with
            fs := FS.remove
              (transcribe_audio env cfg (convert_m4a_to_wav env s file_path).1 wav_path).1.fs
              wav_path },
         Except.ok transcription)

/-- The fixed instruction prompt wrapped around the consolidated text. -/
def promptFor (transcriptions : String) : String :=
  "\n    Here is a set of transcriptions from various voice notes. Please provide a summary of the key points, and list actionable items.\n    \n    Transcriptions:\n    "
    ++ transcriptions ++ "\n    "

/-- generate_summary_and_action: one completion call on the consolidated
text; the response is stripped. -/
def generate_summary_and_action (env : Env) (s : St) (transcriptions : String) :
    St × Except Err String :=
  let s1 : St := { s with summarized := s.summarized ++ [transcriptions] }
  match env.summarize (promptFor transcriptions) with
  | none => (s1, Except.error Err.summaryError)
  | some response => (s1, Except.ok (pyStrip response))

/-- The eligible inputs of a run: names in the incoming directory that end
in ".m4a", joined back onto the directory (enumeration = submission order). -/
def eligibleFiles (fs : FS) (cfg : Config) : List String :=
  ((listdir fs cfg.incoming).filter (fun n => pyEndsWith n ".m4a")).map
    (fun n => pathJoin cfg.incoming n)

/-- Serialized execution of the submitted tasks: order lists the task
indices in the order they run to completion; the association from index to
result plays the futures list.  Every submitted task runs (the executor
with-block waits for all of them), regardless of later gathering errors. -/
def runTasks (env : Env) (cfg : Config) (files : List String) :
    List Nat → St → St × List (Nat × Except Err String)
  | [], s => (s, [])
  | i :: rest, s =>
    match files[i]? with
    | none => runTasks env cfg files rest s
    | some f =>
      ((runTasks env cfg files rest (process_file env cfg s f).1).1,
       (i, (process_file env cfg s f).2)
         :: (runTasks env cfg files rest (process_file env cfg s f).1).2)

/-- future lookup: the result recorded for task index i (first record wins). -/
def lookupResult : List (Nat × Except Err String) → Nat → Option (Except Err String)
  | [], _ => none
  | (j, r) :: res, i => if j = i then some r else lookupResult res i

/-- Result gathering in submission order: future.result() re-raises the
task's error at the first failed future; a truthy (nonempty) text is
appended, an empty text is dropped.  A missing record is unreachable for a
schedule that ran every submitted task; it is modelled as a raise. -/
def gatherResults (res : List (Nat × Except Err String)) : List Nat → Except Err (List String)
  | [] => Except.ok []
  | i :: is =>
    match lookupResult res i with
    | none => Except.error Err.fsError
    | some (Except.error e) => Except.error e
    | some (Except.ok t) =>
      match gatherResults res is with
      | Except.error e => Except.error e
      | Except.ok ts => Except.ok (if t = "" then ts else t :: ts)

/-- The text task i produced (empty when it is not an ok slot). -/
def okText (res : List (Nat × Except Err String)) (i : Nat) : String :=
  match lookupResult res i with
  | some (Except.ok t) => t
  | _ => ""

/-- Whether task i completed with an ok result. -/
def isOkSlot (res : List (Nat × Except Err String)) (i : Nat) : Bool :=
  match lookupResult res i with
  | some (Except.ok _) => true
  | _ => false

/-- The batch phase of main: if the consolidated transcript exists, read
it back (the scheduler is skipped); otherwise enumerate eligible files,
run one task per file, gather in submission order, join with blank lines
and persist the consolidated transcript. -/
def mainGather (env : Env) (cfg : Config) (order : List Nat) (s : St) :
    St × Except Err String :=
  match FS.read s.fs (consolidatedPath cfg) with
  | some combined => (s, Except.ok combined)
  | none =>
    match gatherResults (runTasks env cfg (eligibleFiles s.fs cfg) order s).2
        (List.range (eligibleFiles s.fs cfg).length) with
    | Except.error e =>
      ((runTasks env cfg (eligibleFiles s.fs cfg) order s).1, Except.error e)
    | Except.ok texts =>
      ({ (runTasks env cfg (eligibleFiles s.fs cfg) order s).1 with
          fs := FS.write (runTasks env cfg (eligibleFiles s.fs cfg) order s).1.fs
            (consolidatedPath cfg) (sjoin "\n\n" texts) },
       Except.ok (sjoin "\n\n" texts))

/-- The source's main: batch phase, then the summarizer, then the
finalizer (write the summary document, move the consolidated transcript
to its timestamped path, clear the incoming directory, clear the
intermediate directory).  Any error exits with the state reached at the
raise point.  Named mainRun here because main is reserved.
finalizeFrom is the tail of main after the summarizer succeeded: write the
summary document, move the consolidated transcript, clear both working
directories. -/
def finalizeFrom (cfg : Config) (s2 : St) (summary_and_action : String) : St × Except Err Unit :=
  match FS.read (FS.write s2.fs (summaryActionFilePath cfg) summary_and_action)
      (consolidatedPath cfg) with
  | none =>
    ({ s2 with fs := FS.write s2.fs (summaryActionFilePath cfg) summary_and_action },
     Except.error Err.fsError)
  | some c =>
    ({ s2 with
        fs := clearDir
          (clearDir
            (FS.remove
              (FS.write (FS.write s2.fs (summaryActionFilePath cfg) summary_and_action)
                (transcriptFilePath cfg) c)
              (consolidatedPath cfg))
            cfg.incoming)
          cfg.intermediate },
     Except.ok ())

def mainRun (env : Env) (cfg : Config) (order : List Nat) (s : St) : St × Except Err Unit :=
  match (mainGather env cfg order s).2 with
  | Except.error e => ((mainGather env cfg order s).1, Except.error e)
  | Except.ok combined =>
    match (generate_summary_and_action env (mainGather env cfg order s).1 combined).2 with
    | Except.error e =>
      ((generate_summary_and_action env (mainGather env cfg order s).1 combined).1,
       Except.error e)
    | Except.ok summary_and_action =>
      finalizeFrom cfg
        (generate_summary_and_action env (mainGather env cfg order s).1 combined).1
        summary_and_action

/-! ### Concrete fixtures: the source's default directories and sample runs -/

/-- The default directory configuration of the source, with one fixed
example value for the run timestamp prefix. -/
def cfgA : Config :=
  ⟨"./incoming_audio", "./intermediate_transcripts", "./output", "2024-01-01-00-00"⟩

/-- Deterministic collaborators for concrete runs. -/
def envA : Env :=
  ⟨fun a => some ("w:" ++ a), fun a => some ("t:" ++ a), fun _ => some " SUM "⟩

/-- Collaborators where the transcription service returns an empty text
for the converted content of file b.m4a. -/
def envE : Env :=
  ⟨fun a => some ("w:" ++ a),
   fun a => if a = "w:B" then some "" else some ("t:" ++ a),
   fun _ => some " SUM "⟩

/-- Collaborators where the transcription service raises on the converted
content of file b.m4a. -/
def envF : Env :=
  ⟨fun a => some ("w:" ++ a),
   fun a => if a = "w:B" then none else some ("t:" ++ a),
   fun _ => some " SUM "⟩

/-- One input file, cold cache. -/
def sA : St := ⟨[("./incoming_audio/voice.m4a", "A")], [], [], []⟩

/-- Two input files, cold cache. -/
def sAB : St :=
  ⟨[("./incoming_audio/a.m4a", "A"), ("./incoming_audio/b.m4a", "B")], [], [], []⟩

/-- One input file with a pre-existing cache entry under its source
filename key. -/
def sHit : St :=
  ⟨[("./incoming_audio/voice.m4a", "A"),
    ("./intermediate_transcripts/voice.m4a.txt", "CACHED")], [], [], []⟩

/-- The state after the batch phase of envA on sA (computed by the model):
consolidated transcript written, cache entry keyed voice.wav.txt, input
intact, one conversion and one upload logged. -/
def s1A : St :=
  ⟨[("./intermediate_transcripts/total_transcript.md", "t:w:A"),
    ("./intermediate_transcripts/voice.wav.txt", "t:w:A"),
    ("./incoming_audio/voice.m4a", "A")],
   ["./incoming_audio/voice.m4a"], ["./incoming_audio/voice.wav"], []⟩

/-! ### Filesystem lemmas -/

theorem FS.read_mem {fs : FS} {p c : String} (h : FS.read fs p = some c) : (p, c) ∈ fs := by
  induction fs with
  | nil => simp [FS.read] at h
  | cons e fs ih =>
    obtain ⟨a, b⟩ := e
    by_cases hap : a = p
    · subst hap
      simp [FS.read] at h
      subst h
      exact List.mem_cons_self _ _
    · simp [FS.read, hap] at h
      exact List.mem_cons_of_mem _ (ih h)

theorem FS.read_remove_self (fs : FS) (p : String) : FS.read (FS.remove fs p) p = none := by
  induction fs with
  | nil => rfl
  | cons e fs ih =>
    obtain ⟨a, b⟩ := e
    by_cases hap : a = p
    · simp [FS.remove, hap, ih]
    · simp [FS.remove, FS.read, hap, ih]

theorem FS.read_remove_ne (fs : FS) {p q : String} (h : q ≠ p) :
    FS.read (FS.remove fs p) q = FS.read fs q := by
  induction fs with
  | nil => rfl
  | cons e fs ih =>
    obtain ⟨a, b⟩ := e
    by_cases hap : a = p
    · subst hap
      have : a ≠ q := fun hh => h hh.symm
      simp [FS.remove, FS.read, this, ih]
    · simp [FS.remove, FS.read, hap, ih]

theorem FS.read_write_self (fs : FS) (p c : String) : FS.read (FS.write fs p c) p = some c := by
  simp [FS.write, FS.read]

theorem FS.read_write_ne (fs : FS) {p q : String} (c : String) (h : q ≠ p) :
    FS.read (FS.write fs p c) q = FS.read fs q := by
  have hpq : p ≠ q := fun hh => h hh.symm
  simp [FS.write, FS.read, hpq, FS.read_remove_ne fs h]

theorem FS.read_remove_some {fs : FS} {p q c : String}
    (h : FS.read (FS.remove fs p) q = some c) : FS.read fs q = some c := by
  by_cases hqp : q = p
  · subst hqp
    rw [FS.read_remove_self] at h
    exact absurd h (by simp)
  · rwa [FS.read_remove_ne fs hqp] at h

/-! ### Cleanup-loop lemmas -/

theorem removeIfFile_some {d : String} {acc : FS} {n p c : String}
    (h : FS.read (removeIfFile d acc n) p = some c) : FS.read acc p = some c := by
  unfold removeIfFile at h
  split at h
  · exact FS.read_remove_some h
  · exact h

theorem removeIfFile_none {d : String} {acc : FS} {n p : String}
    (h : FS.read acc p = none) : FS.read (removeIfFile d acc n) p = none := by
  unfold removeIfFile
  split
  · by_cases hqp : p = pathJoin d n
    · subst hqp
      exact FS.read_remove_self _ _
    · rwa [FS.read_remove_ne _ hqp]
  · exact h

theorem removeIfFile_kills (d : String) (acc : FS) (n : String) :
    FS.read (removeIfFile d acc n) (pathJoin d n) = none := by
  unfold removeIfFile
  split
  · exact FS.read_remove_self _ _
  · next h => exact h

theorem removeIfFile_ne {d : String} {acc : FS} {n p : String}
    (h : p ≠ pathJoin d n) : FS.read (removeIfFile d acc n) p = FS.read acc p := by
  unfold removeIfFile
  split
  · exact FS.read_remove_ne _ h
  · rfl

theorem clearFold_some {d p c : String} :
    ∀ (names : List String) (acc : FS),
      FS.read (names.foldl (removeIfFile d) acc) p = some c → FS.read acc p = some c := by
  intro names
  induction names with
  | nil => intro acc h; exact h
  | cons n ns ih => intro acc h; exact removeIfFile_some (ih _ h)

theorem clearFold_none {d p : String} :
    ∀ (names : List String) (acc : FS),
      FS.read acc p = none → FS.read (names.foldl (removeIfFile d) acc) p = none := by
  intro names
  induction names with
  | nil => intro acc h; exact h
  | cons n ns ih => intro acc h; exact ih _ (removeIfFile_none h)

theorem clearFold_kills {d n : String} :
    ∀ (names : List String) (acc : FS), n ∈ names →
      FS.read (names.foldl (removeIfFile d) acc) (pathJoin d n) = none := by
  intro names
  induction names with
  | nil => intro acc h; exact absurd h (List.not_mem_nil n)
  | cons m ms ih =>
    intro acc h
    by_cases hnm : n = m
    · subst hnm
      exact clearFold_none ms _ (removeIfFile_kills d acc n)
    · cases List.mem_cons.mp h with
      | inl h1 => exact absurd h1 hnm
      | inr h2 => exact ih _ h2

theorem clearFold_frame {d p : String} :
    ∀ (names : List String) (acc : FS), (∀ n ∈ names, p ≠ pathJoin d n) →
      FS.read (names.foldl (removeIfFile d) acc) p = FS.read acc p := by
  intro names
  induction names with
  | nil => intro acc _; rfl
  | cons m ms ih =>
    intro acc h
    rw [List.foldl_cons, ih _ (fun n hn => h n (List.mem_cons_of_mem m hn)),
      removeIfFile_ne (h m (List.mem_cons_self m ms))]

theorem clearDir_some {fs : FS} {d p c : String}
    (h : FS.read (clearDir fs d) p = some c) : FS.read fs p = some c :=
  clearFold_some _ _ h

theorem clearDir_none {fs : FS} {d p : String} (h : FS.read fs p = none) :
    FS.read (clearDir fs d) p = none :=
  clearFold_none _ _ h

theorem clearDir_kills {fs : FS} {d n : String} (h : n ∈ listdir fs d) :
    FS.read (clearDir fs d) (pathJoin d n) = none :=
  clearFold_kills _ _ h

theorem clearDir_frame {fs : FS} {d p : String} (h : ∀ n ∈ listdir fs d, p ≠ pathJoin d n) :
    FS.read (clearDir fs d) p = FS.read fs p :=
  clearFold_frame _ _ h

/-! ### Path and listing lemmas -/

theorem isPrefixOf_append_self (l m : List Char) : l.isPrefixOf (l ++ m) = true := by
  rw [List.isPrefixOf_iff_prefix]
  exact List.prefix_append l m

theorem pathJoin_data (d n : String) : (pathJoin d n).data = (d ++ "/").data ++ n.data := by
  simp [pathJoin, String.data_append]

theorem pathJoin_inj {d a b : String} (h : pathJoin d a = pathJoin d b) : a = b := by
  have h2 := congrArg String.data h
  rw [pathJoin_data, pathJoin_data] at h2
  exact String.ext (List.append_cancel_left h2)

theorem string_append_left_cancel {x a b : String} (h : x ++ a = x ++ b) : a = b := by
  have h2 := congrArg String.data h
  rw [String.data_append, String.data_append] at h2
  exact String.ext (List.append_cancel_left h2)

theorem underDir_join (d n : String) : underDir d (pathJoin d n) = true := by
  unfold underDir
  rw [pathJoin_data]
  exact isPrefixOf_append_self _ _

theorem ne_of_under_not_under {d p q : String} (hp : underDir d p = true)
    (hq : underDir d q = false) : p ≠ q := by
  intro h
  subst h
  rw [hp] at hq
  exact Bool.noConfusion hq

theorem childName_join {d n : String} (hne : n.data ≠ [])
    (hslash : ∀ c ∈ n.data, (c != '/') = true) :
    childName d (pathJoin d n) = some n := by
  unfold childName
  rw [pathJoin_data, isPrefixOf_append_self]
  simp only [if_true, List.drop_left]
  rw [List.takeWhile_eq_self_iff.mpr hslash]
  have hempty : n.data.isEmpty = false := by
    cases hd : n.data with
    | nil => exact absurd hd hne
    | cons a l => rfl
  simp [hempty]

theorem mem_listdir_of_read {fs : FS} {d n c : String}
    (h : FS.read fs (pathJoin d n) = some c) (hne : n.data ≠ [])
    (hslash : ∀ x ∈ n.data, (x != '/') = true) : n ∈ listdir fs d := by
  have hmem : (pathJoin d n, c) ∈ fs := FS.read_mem h
  unfold listdir
  rw [List.mem_dedup, List.mem_filterMap]
  exact ⟨pathJoin d n, List.mem_map_of_mem _ hmem, childName_join hne hslash⟩

/-! ### process_file case analysis -/

theorem process_file_spec (env : Env) (cfg : Config) (s : St) (f : String) :
    (∃ t, FS.read s.fs (srcCachePath cfg f) = some t
      ∧ process_file env cfg s f = (s, Except.ok t))
    ∨ (FS.read s.fs (srcCachePath cfg f) = none
      ∧ FS.read s.fs f = none
      ∧ process_file env cfg s f
        = ({ s with converted := s.converted ++ [f] }, Except.error Err.fsError))
    ∨ (∃ a, FS.read s.fs (srcCachePath cfg f) = none
      ∧ FS.read s.fs f = some a ∧ env.convert a = none
      ∧ process_file env cfg s f
        = ({ s with converted := s.converted ++ [f] }, Except.error Err.decodeError))
    ∨ (∃ a w t, FS.read s.fs (srcCachePath cfg f) = none
      ∧ FS.read s.fs f = some a ∧ env.convert a = some w
      ∧ FS.read (FS.write s.fs (wavPath f) w) (wavCachePath cfg f) = some t
      ∧ process_file env cfg s f
        = ({ s with
              fs := FS.remove (FS.write s.fs (wavPath f) w) (wavPath f),
              converted := s.converted ++ [f] }, Except.ok t))
    ∨ (∃ a w, FS.read s.fs (srcCachePath cfg f) = none
      ∧ FS.read s.fs f = some a ∧ env.convert a = some w
      ∧ FS.read (FS.write s.fs (wavPath f) w) (wavCachePath cfg f) = none
      ∧ env.transcribe w = none
      ∧ process_file env cfg s f
        = ({ s with
              fs := FS.write s.fs (wavPath f) w,
              converted := s.converted ++ [f],
              transcribed := s.transcribed ++ [wavPath f] },
           Except.error Err.transcriptionError))
    ∨ (∃ a w t, FS.read s.fs (srcCachePath cfg f) = none
      ∧ FS.read s.fs f = some a ∧ env.convert a = some w
      ∧ FS.read (FS.write s.fs (wavPath f) w) (wavCachePath cfg f) = none
      ∧ env.transcribe w = some t
      ∧ process_file env cfg s f
        = ({ s with
              fs := FS.remove
                (FS.write (FS.write s.fs (wavPath f) w) (wavCachePath cfg f) t)
                (wavPath f),
              converted := s.converted ++ [f],
              transcribed := s.transcribed ++ [wavPath f] }, Except.ok t)) := by
  cases h1 : FS.read s.fs (srcCachePath cfg f) with
  | some t =>
    refine Or.inl ⟨t, rfl, ?_⟩
    simp only [process_file, h1]
  | none =>
    cases h2 : FS.read s.fs f with
    | none =>
      refine Or.inr (Or.inl ⟨rfl, rfl, ?_⟩)
      simp only [process_file, convert_m4a_to_wav, h1, h2]
    | some audio =>
      cases h3 : env.convert audio with
      | none =>
        refine Or.inr (Or.inr (Or.inl ⟨audio, rfl, rfl, h3, ?_⟩))
        simp only [process_file, convert_m4a_to_wav, h1, h2, h3]
      | some w =>
        cases h4 : FS.read (FS.write s.fs (wavPath f) w) (wavCachePath cfg f) with
        | some t =>
          refine Or.inr (Or.inr (Or.inr (Or.inl ⟨audio, w, t, rfl, rfl, h3, h4, ?_⟩)))
          simp only [process_file, convert_m4a_to_wav, transcribe_audio, wavCachePath,
            h1, h2, h3] at h4 ⊢
          simp only [h4]
        | none =>
          cases h5 : env.transcribe w with
          | none =>
            refine Or.inr (Or.inr (Or.inr (Or.inr (Or.inl
              ⟨audio, w, rfl, rfl, h3, h4, h5, ?_⟩))))
            simp only [process_file, convert_m4a_to_wav, transcribe_audio, wavCachePath,
              h1, h2, h3] at h4 ⊢
            simp only [h4, FS.read_write_self, h5]
          | some t =>
            refine Or.inr (Or.inr (Or.inr (Or.inr (Or.inr
              ⟨audio, w, t, rfl, rfl, h3, h4, h5, ?_⟩))))
            simp only [process_file, convert_m4a_to_wav, transcribe_audio, wavCachePath,
              h1, h2, h3] at h4 ⊢
            simp only [h4, FS.read_write_self, h5]

/-! ### process_file consequences -/

theorem process_file_cache_hit {env : Env} {cfg : Config} {s : St} {f t : String}
    (h : FS.read s.fs (srcCachePath cfg f) = some t) :
    process_file env cfg s f = (s, Except.ok t) := by
  unfold process_file
  rw [h]

theorem process_file_summarized (env : Env) (cfg : Config) (s : St) (f : String) :
    (process_file env cfg s f).1.summarized = s.summarized := by
  rcases process_file_spec env cfg s f with
    ⟨t, h1, he⟩ | ⟨h1, h2, he⟩ | ⟨a, h1, h2, h3, he⟩ | ⟨a, w, t, h1, h2, h3, h4, he⟩
    | ⟨a, w, h1, h2, h3, h4, h5, he⟩ | ⟨a, w, t, h1, h2, h3, h4, h5, he⟩ <;>
  simp [he]

theorem process_file_frame_some {env : Env} {cfg : Config} {s : St} {f q c : String}
    (hq : q ≠ wavPath f) (h : FS.read s.fs q = some c) :
    FS.read (process_file env cfg s f).1.fs q = some c := by
  rcases process_file_spec env cfg s f with
    ⟨t, h1, he⟩ | ⟨h1, h2, he⟩ | ⟨a, h1, h2, h3, he⟩ | ⟨a, w, t, h1, h2, h3, h4, he⟩
    | ⟨a, w, h1, h2, h3, h4, h5, he⟩ | ⟨a, w, t, h1, h2, h3, h4, h5, he⟩
  · rw [he]; exact h
  · rw [he]; exact h
  · rw [he]; exact h
  · rw [he]
    simp only
    rw [FS.read_remove_ne _ hq, FS.read_write_ne _ _ hq]
    exact h
  · rw [he]
    simp only
    rw [FS.read_write_ne _ _ hq]
    exact h
  · by_cases hqc : q = wavCachePath cfg f
    · exfalso
      have hsome : FS.read (FS.write s.fs (wavPath f) w) q = some c := by
        rw [FS.read_write_ne _ _ hq]; exact h
      rw [hqc] at hsome
      rw [h4] at hsome
      exact Option.noConfusion hsome
    · rw [he]
      simp only
      rw [FS.read_remove_ne _ hq, FS.read_write_ne _ _ hqc, FS.read_write_ne _ _ hq]
      exact h

theorem process_file_frame_none {env : Env} {cfg : Config} {s : St} {f q : String}
    (hq1 : q ≠ wavPath f) (hq2 : q ≠ wavCachePath cfg f) (h : FS.read s.fs q = none) :
    FS.read (process_file env cfg s f).1.fs q = none := by
  rcases process_file_spec env cfg s f with
    ⟨t, h1, he⟩ | ⟨h1, h2, he⟩ | ⟨a, h1, h2, h3, he⟩ | ⟨a, w, t, h1, h2, h3, h4, he⟩
    | ⟨a, w, h1, h2, h3, h4, h5, he⟩ | ⟨a, w, t, h1, h2, h3, h4, h5, he⟩
  · rw [he]; exact h
  · rw [he]; exact h
  · rw [he]; exact h
  · rw [he]
    simp only
    rw [FS.read_remove_ne _ hq1, FS.read_write_ne _ _ hq1]
    exact h
  · rw [he]
    simp only
    rw [FS.read_write_ne _ _ hq1]
    exact h
  · rw [he]
    simp only
    rw [FS.read_remove_ne _ hq1, FS.read_write_ne _ _ hq2, FS.read_write_ne _ _ hq1]
    exact h

theorem process_file_cache_post {env : Env} {cfg : Config} {s : St} {f t : String}
    (hw : wavCachePath cfg f ≠ wavPath f)
    (hr : (process_file env cfg s f).2 = Except.ok t) :
    FS.read (process_file env cfg s f).1.fs (srcCachePath cfg f) = some t
    ∨ FS.read (process_file env cfg s f).1.fs (wavCachePath cfg f) = some t := by
  rcases process_file_spec env cfg s f with
    ⟨u, h1, he⟩ | ⟨h1, h2, he⟩ | ⟨a, h1, h2, h3, he⟩ | ⟨a, w, u, h1, h2, h3, h4, he⟩
    | ⟨a, w, h1, h2, h3, h4, h5, he⟩ | ⟨a, w, u, h1, h2, h3, h4, h5, he⟩
  · rw [he] at hr ⊢
    simp only at hr ⊢
    injection hr with hr2
    subst hr2
    exact Or.inl h1
  · rw [he] at hr
    exact absurd hr (by simp)
  · rw [he] at hr
    exact absurd hr (by simp)
  · rw [he] at hr ⊢
    simp only at hr ⊢
    injection hr with hr2
    subst hr2
    refine Or.inr ?_
    rw [FS.read_remove_ne _ hw]
    exact h4
  · rw [he] at hr
    exact absurd hr (by simp)
  · rw [he] at hr ⊢
    simp only at hr ⊢
    injection hr with hr2
    subst hr2
    refine Or.inr ?_
    rw [FS.read_remove_ne _ hw, FS.read_write_self]

/-! ### runTasks lemmas -/

theorem runTasks_summarized (env : Env) (cfg : Config) (files : List String) :
    ∀ (order : List Nat) (s : St),
      (runTasks env cfg files order s).1.summarized = s.summarized := by
  intro order
  induction order with
  | nil => intro s; rfl
  | cons i rest ih =>
    intro s
    cases hf : files[i]? with
    | none => simp only [runTasks, hf]; exact ih s
    | some f =>
      simp only [runTasks, hf]
      rw [ih]
      exact process_file_summarized env cfg s f

theorem runTasks_frame_some {env : Env} {cfg : Config} {files : List String} {q c : String}
    (hq : ∀ f ∈ files, q ≠ wavPath f) :
    ∀ (order : List Nat) (s : St), FS.read s.fs q = some c →
      FS.read (runTasks env cfg files order s).1.fs q = some c := by
  intro order
  induction order with
  | nil => intro s h; exact h
  | cons i rest ih =>
    intro s h
    cases hf : files[i]? with
    | none => simp only [runTasks, hf]; exact ih s h
    | some f =>
      simp only [runTasks, hf]
      exact ih _ (process_file_frame_some (hq f (List.getElem?_mem hf)) h)

theorem runTasks_frame_none {env : Env} {cfg : Config} {files : List String} {q : String}
    (hq1 : ∀ f ∈ files, q ≠ wavPath f) (hq2 : ∀ f ∈ files, q ≠ wavCachePath cfg f) :
    ∀ (order : List Nat) (s : St), FS.read s.fs q = none →
      FS.read (runTasks env cfg files order s).1.fs q = none := by
  intro order
  induction order with
  | nil => intro s h; exact h
  | cons i rest ih =>
    intro s h
    cases hf : files[i]? with
    | none => simp only [runTasks, hf]; exact ih s h
    | some f =>
      simp only [runTasks, hf]
      exact ih _ (process_file_frame_none (hq1 f (List.getElem?_mem hf))
        (hq2 f (List.getElem?_mem hf)) h)

theorem runTasks_cache_inv {env : Env} {cfg : Config} {files : List String}
    (hp : ∀ f ∈ files, ∀ g ∈ files,
      srcCachePath cfg f ≠ wavPath g ∧ wavCachePath cfg f ≠ wavPath g) :
    ∀ (order : List Nat) (s : St) (i : Nat) (t : String) (f : String),
      lookupResult (runTasks env cfg files order s).2 i = some (Except.ok t) →
      files[i]? = some f →
      FS.read (runTasks env cfg files order s).1.fs (srcCachePath cfg f) = some t
      ∨ FS.read (runTasks env cfg files order s).1.fs (wavCachePath cfg f) = some t := by
  intro order
  induction order with
  | nil =>
    intro s i t f hl hf
    simp [runTasks, lookupResult] at hl
  | cons j rest ih =>
    intro s i t f hl hf
    cases hg : files[j]? with
    | none =>
      simp only [runTasks, hg] at hl ⊢
      exact ih s i t f hl hf
    | some g =>
      have hfm : f ∈ files := List.getElem?_mem hf
      simp only [runTasks, hg] at hl ⊢
      by_cases hij : j = i
      · subst hij
        have hgf : g = f := by
          rw [hg] at hf
          exact Option.some.inj hf
        subst hgf
        simp only [lookupResult, if_pos rfl] at hl
        have hl2 : (process_file env cfg s g).2 = Except.ok t := Option.some.inj hl
        have hwne : wavCachePath cfg g ≠ wavPath g := (hp g hfm g hfm).2
        cases process_file_cache_post hwne hl2 with
        | inl h =>
          exact Or.inl (runTasks_frame_some (fun g2 hg2 => (hp g hfm g2 hg2).1) rest _ h)
        | inr h =>
          exact Or.inr (runTasks_frame_some (fun g2 hg2 => (hp g hfm g2 hg2).2) rest _ h)
      · simp only [lookupResult, if_neg hij] at hl
        exact ih _ i t f hl hf

/-! ### gather and mainGather lemmas -/

theorem gatherResults_ok_texts {res : List (Nat × Except Err String)} :
    ∀ is : List Nat, (∀ i ∈ is, isOkSlot res i = true) →
      gatherResults res is
        = Except.ok ((is.map (okText res)).filter (fun t => !(t == ""))) := by
  intro is
  induction is with
  | nil => intro _; rfl
  | cons i is ih =>
    intro h
    have hi := h i (List.mem_cons_self i is)
    unfold isOkSlot at hi
    cases hl : lookupResult res i with
    | none => rw [hl] at hi; exact Bool.noConfusion hi
    | some r =>
      cases r with
      | error e => rw [hl] at hi; exact Bool.noConfusion hi
      | ok t =>
        have hrest := ih (fun j hj => h j (List.mem_cons_of_mem i hj))
        unfold gatherResults
        rw [hl, hrest]
        simp only [List.map_cons, List.filter_cons, okText, hl]
        by_cases ht : t = ""
        · simp [ht]
        · simp [ht]

theorem gatherResults_error_of_mem {res : List (Nat × Except Err String)} {i : Nat} {e : Err} :
    ∀ is : List Nat, i ∈ is → lookupResult res i = some (Except.error e) →
      ∃ e2, gatherResults res is = Except.error e2 := by
  intro is
  induction is with
  | nil => intro h _; exact absurd h (List.not_mem_nil i)
  | cons j js ih =>
    intro hmem hl
    cases hlj : lookupResult res j with
    | none => exact ⟨Err.fsError, by unfold gatherResults; rw [hlj]⟩
    | some r =>
      cases r with
      | error e2 => exact ⟨e2, by unfold gatherResults; rw [hlj]⟩
      | ok t =>
        have hij : i ≠ j := by
          intro hh
          subst hh
          rw [hl] at hlj
          simp at hlj
        have hmem2 : i ∈ js := (List.mem_cons.mp hmem).resolve_left hij
        obtain ⟨e2, he2⟩ := ih hmem2 hl
        refine ⟨e2, ?_⟩
        unfold gatherResults
        rw [hlj, he2]

theorem mainGather_hit {env : Env} {cfg : Config} {order : List Nat} {s : St} {C : String}
    (h : FS.read s.fs (consolidatedPath cfg) = some C) :
    mainGather env cfg order s = (s, Except.ok C) := by
  unfold mainGather
  rw [h]

theorem mainGather_ok_consolidated {env : Env} {cfg : Config} {order : List Nat}
    {s s1 : St} {C : String} (h : mainGather env cfg order s = (s1, Except.ok C)) :
    FS.read s1.fs (consolidatedPath cfg) = some C := by
  unfold mainGather at h
  cases hc : FS.read s.fs (consolidatedPath cfg) with
  | some c0 =>
    rw [hc] at h
    have h1 : s = s1 := congrArg Prod.fst h
    have h2 : (Except.ok c0 : Except Err String) = Except.ok C := congrArg Prod.snd h
    injection h2 with h3
    subst h3
    rw [← h1]
    exact hc
  | none =>
    rw [hc] at h
    cases hg : gatherResults (runTasks env cfg (eligibleFiles s.fs cfg) order s).2
        (List.range (eligibleFiles s.fs cfg).length) with
    | error e =>
      rw [hg] at h
      have h2 := congrArg Prod.snd h
      simp at h2
    | ok texts =>
      rw [hg] at h
      have h1 := congrArg Prod.fst h
      have h2 := congrArg Prod.snd h
      simp only at h1 h2
      injection h2 with h3
      rw [← h1]
      simp only
      rw [FS.read_write_self]
      rw [h3]

/-! ### Further support lemmas -/

theorem gatherResults_no_empty {res : List (Nat × Except Err String)} :
    ∀ (is : List Nat) (ts : List String),
      gatherResults res is = Except.ok ts → "" ∉ ts := by
  intro is
  induction is with
  | nil =>
    intro ts h
    unfold gatherResults at h
    injection h with h2
    subst h2
    exact List.not_mem_nil ""
  | cons i is ih =>
    intro ts h
    unfold gatherResults at h
    cases hl : lookupResult res i with
    | none => rw [hl] at h; exact absurd h (by simp)
    | some r =>
      cases r with
      | error e => rw [hl] at h; exact absurd h (by simp)
      | ok t =>
        rw [hl] at h
        cases hr : gatherResults res is with
        | error e => rw [hr] at h; exact absurd h (by simp)
        | ok ts2 =>
          rw [hr] at h
          injection h with h2
          by_cases ht : t = ""
          · rw [if_pos ht] at h2
            subst h2
            exact ih ts2 hr
          · rw [if_neg ht] at h2
            subst h2
            intro hmem
            cases List.mem_cons.mp hmem with
            | inl h3 => exact ht h3.symm
            | inr h3 => exact ih ts2 hr h3

theorem listdir_shape {fs : FS} {d n : String} (h : n ∈ listdir fs d) :
    ∀ x ∈ n.data, (x != '/') = true := by
  unfold listdir at h
  rw [List.mem_dedup, List.mem_filterMap] at h
  obtain ⟨p, hp, hcn⟩ := h
  unfold childName at hcn
  split at hcn
  · dsimp only at hcn
    split at hcn
    · exact absurd hcn (by simp)
    · have h2 := Option.some.inj hcn
      have h3 : n.data = (p.data.drop (d ++ "/").data.length).takeWhile (fun c => c != '/') :=
        (congrArg String.data h2).symm
      intro x hx
      rw [h3] at hx
      have h4 := List.mem_takeWhile_imp hx
      exact h4
  · exact absurd hcn (by simp)

theorem finalizeFrom_logs (cfg : Config) (s2 : St) (x : String) :
    (finalizeFrom cfg s2 x).1.summarized = s2.summarized
    ∧ (finalizeFrom cfg s2 x).1.converted = s2.converted
    ∧ (finalizeFrom cfg s2 x).1.transcribed = s2.transcribed := by
  unfold finalizeFrom
  split <;> simp

theorem mainGather_ok_cases {env : Env} {cfg : Config} {order : List Nat}
    {s s1 : St} {C : String} (h : mainGather env cfg order s = (s1, Except.ok C)) :
    (FS.read s.fs (consolidatedPath cfg) = some C ∧ s1 = s)
    ∨ (FS.read s.fs (consolidatedPath cfg) = none
      ∧ s1 = { (runTasks env cfg (eligibleFiles s.fs cfg) order s).1 with
            fs := FS.write (runTasks env cfg (eligibleFiles s.fs cfg) order s).1.fs
              (consolidatedPath cfg) C }) := by
  unfold mainGather at h
  cases hc : FS.read s.fs (consolidatedPath cfg) with
  | some c0 =>
    rw [hc] at h
    have h1 : s = s1 := congrArg Prod.fst h
    have h2 : (Except.ok c0 : Except Err String) = Except.ok C := congrArg Prod.snd h
    injection h2 with h3
    subst h3
    exact Or.inl ⟨rfl, h1.symm⟩
  | none =>
    rw [hc] at h
    cases hg : gatherResults (runTasks env cfg (eligibleFiles s.fs cfg) order s).2
        (List.range (eligibleFiles s.fs cfg).length) with
    | error e =>
      rw [hg] at h
      have h2 := congrArg Prod.snd h
      simp at h2
    | ok texts =>
      rw [hg] at h
      have h1 := congrArg Prod.fst h
      have h2 := congrArg Prod.snd h
      simp only at h1 h2
      injection h2 with h3
      subst h3
      exact Or.inr ⟨rfl, h1.symm⟩

theorem mainRun_after_gather {env : Env} {cfg : Config} {order : List Nat}
    {s s1 : St} {C : String} (hg : mainGather env cfg order s = (s1, Except.ok C)) :
    (mainRun env cfg order s).1.summarized = s1.summarized ++ [C]
    ∧ (mainRun env cfg order s).1.converted = s1.converted
    ∧ (mainRun env cfg order s).1.transcribed = s1.transcribed := by
  unfold mainRun
  rw [hg]
  dsimp only
  unfold generate_summary_and_action
  cases hs : env.summarize (promptFor C) with
  | none => simp
  | some r =>
    dsimp only
    obtain ⟨a, b, c⟩ :=
      finalizeFrom_logs cfg { s1 with summarized := s1.summarized ++ [C] } (pyStrip r)
    refine ⟨?_, ?_, ?_⟩
    · rw [a]
    · rw [b]
    · rw [c]

/-! ### Claim theorems -/

/-- C1: the code persists the Transcript Entry under the key derived from
the converted wav filename, not under the source filename.  At the concrete
input voice.m4a with an empty cache, the pipeline stores the transcript at
voice.wav.txt while the source-filename key voice.m4a.txt (the very key
process_file checks, shown by the last conjunct) is left absent.  This
contradicts the claim that the cache is keyed by the source filename. -/
theorem c1_cache_key_divergence :
    (process_file envA cfgA sA "./incoming_audio/voice.m4a").2 = Except.ok "t:w:A"
    ∧ FS.read (process_file envA cfgA sA "./incoming_audio/voice.m4a").1.fs
        "./intermediate_transcripts/voice.wav.txt" = some "t:w:A"
    ∧ FS.read (process_file envA cfgA sA "./incoming_audio/voice.m4a").1.fs
        "./intermediate_transcripts/voice.m4a.txt" = none
    ∧ srcCachePath cfgA "./incoming_audio/voice.m4a"
        = "./intermediate_transcripts/voice.m4a.txt"
    ∧ wavCachePath cfgA "./incoming_audio/voice.m4a"
        = "./intermediate_transcripts/voice.wav.txt" :=
  ⟨rfl, rfl, rfl, rfl, rfl⟩

/-- C2: for a file whose Transcript Cache entry (keyed by the file's source
filename, as the spec defines the key) exists when process_file runs, the
pipeline returns the state completely unchanged together with exactly the
cached text: in particular the Normalizer and the Transcription Client logs
are untouched, so neither collaborator is invoked. -/
theorem c2_cache_hit_short_circuit (env : Env) (cfg : Config) (s : St) (f t : String)
    (h : FS.read s.fs (srcCachePath cfg f) = some t) :
    process_file env cfg s f = (s, Except.ok t) :=
  process_file_cache_hit h

/-- C2 witness: a concrete file with a pre-existing source-keyed entry. -/
theorem c2_witness :
    process_file envA cfgA sHit "./incoming_audio/voice.m4a" = (sHit, Except.ok "CACHED") :=
  c2_cache_hit_short_circuit envA cfgA sHit "./incoming_audio/voice.m4a" "CACHED" rfl

/-- C3: idempotence of the batch phase.  If a run of the batch phase
produced consolidated content C and exit state s1, then running the batch
phase again (under any completion order) returns exactly (s1, ok C): the
second run yields identical Consolidated Transcript content and leaves the
state untouched, so the Transcription Client log does not grow (the client
is never invoked on the second run).  Additionally, for every key, a cache
get directly after a put of that key returns the stored text. -/
theorem c3_idempotent_rerun (env : Env) (cfg : Config) (order order2 : List Nat)
    (s s1 : St) (C : String) (h : mainGather env cfg order s = (s1, Except.ok C)) :
    mainGather env cfg order2 s1 = (s1, Except.ok C)
    ∧ (∀ fs k v, FS.read (FS.write fs k v) k = some v) := by
  constructor
  · exact mainGather_hit (mainGather_ok_consolidated h)
  · intro fs k v
    exact FS.read_write_self fs k v

/-- C3 witness: a concrete one-file batch run twice. -/
theorem c3_witness :
    mainGather envA cfgA [7] s1A = (s1A, Except.ok "t:w:A")
    ∧ (∀ fs k v, FS.read (FS.write fs k v) k = some v) :=
  c3_idempotent_rerun envA cfgA [0] [7] sA s1A "t:w:A" rfl

/-- C4: when the Consolidated Transcript already exists with content C at
the start of a run, the batch phase returns (s, ok C) without touching the
state at all (no enumeration, no conversion, no upload: the filesystem and
all invocation logs are exactly as before), and the full run hands exactly
C to the Summarizer (the summarizer log receives C verbatim while the
converter and transcriber logs stay unchanged). -/
theorem c4_resume_skips_scheduler (env : Env) (cfg : Config) (order : List Nat)
    (s : St) (C : String) (h : FS.read s.fs (consolidatedPath cfg) = some C) :
    mainGather env cfg order s = (s, Except.ok C)
    ∧ (mainRun env cfg order s).1.summarized = s.summarized ++ [C]
    ∧ (mainRun env cfg order s).1.converted = s.converted
    ∧ (mainRun env cfg order s).1.transcribed = s.transcribed := by
  have hg : mainGather env cfg order s = (s, Except.ok C) := mainGather_hit h
  obtain ⟨a, b, c⟩ := mainRun_after_gather hg
  exact ⟨hg, a, b, c⟩

/-- C4 witness: a run starting with an existing consolidated transcript. -/
theorem c4_witness :
    mainGather envA cfgA [0] s1A = (s1A, Except.ok "t:w:A")
    ∧ (mainRun envA cfgA [0] s1A).1.summarized = s1A.summarized ++ ["t:w:A"]
    ∧ (mainRun envA cfgA [0] s1A).1.converted = s1A.converted
    ∧ (mainRun envA cfgA [0] s1A).1.transcribed = s1A.transcribed :=
  c4_resume_skips_scheduler envA cfgA [0] s1A "t:w:A" rfl

/-- C5 counterexample: a batch of two files whose tasks produce, in
submission order, the texts t:w:A and the empty string.  The consolidated
transcript is just t:w:A, not the claimed blank-line concatenation of the
two produced texts (which would be t:w:A followed by the separator). -/
theorem c5_counterexample :
    okText (runTasks envE cfgA (eligibleFiles sAB.fs cfgA) [0, 1] sAB).2 0 = "t:w:A"
    ∧ okText (runTasks envE cfgA (eligibleFiles sAB.fs cfgA) [0, 1] sAB).2 1 = ""
    ∧ (mainGather envE cfgA [0, 1] sAB).2 = Except.ok "t:w:A"
    ∧ (mainGather envE cfgA [0, 1] sAB).2 ≠ Except.ok (sjoin "\n\n" ["t:w:A", ""]) := by
  refine ⟨rfl, rfl, rfl, ?_⟩
  intro h
  rw [(rfl : (mainGather envE cfgA [0, 1] sAB).2 = Except.ok "t:w:A")] at h
  injection h with h2
  exact absurd h2 (by decide)

/-- C5 amended: for every completion order of the submitted tasks, when
every gathered slot completed with an ok text, the consolidated transcript
equals the blank-line join, in submission (enumeration) order, of the
NONEMPTY texts the tasks produced; empty texts are dropped (see C9), all
other texts appear in submission order regardless of the completion
order. -/
theorem c5_join_in_submission_order (env : Env) (cfg : Config) (order : List Nat) (s : St)
    (hcons : FS.read s.fs (consolidatedPath cfg) = none)
    (hok : ∀ i ∈ List.range (eligibleFiles s.fs cfg).length,
      isOkSlot (runTasks env cfg (eligibleFiles s.fs cfg) order s).2 i = true) :
    (mainGather env cfg order s).2
      = Except.ok (sjoin "\n\n"
          (((List.range (eligibleFiles s.fs cfg).length).map
              (okText (runTasks env cfg (eligibleFiles s.fs cfg) order s).2)).filter
            (fun t => !(t == "")))) := by
  unfold mainGather
  rw [hcons, gatherResults_ok_texts _ hok]

/-- C5 witness: a two-file batch executed in reversed completion order. -/
theorem c5_witness :
    (mainGather envA cfgA [1, 0] sAB).2
      = Except.ok (sjoin "\n\n"
          (((List.range (eligibleFiles sAB.fs cfgA).length).map
              (okText (runTasks envA cfgA (eligibleFiles sAB.fs cfgA) [1, 0] sAB).2)).filter
            (fun t => !(t == "")))) :=
  c5_join_in_submission_order envA cfgA [1, 0] sAB rfl (by decide)

/-- C9: empty transcript texts are omitted from the Consolidated
Transcript entirely.  When the gathering loop succeeds with text list ts,
the consolidated transcript is the blank-line join of ts, and ts never
contains the empty string: a task returning the empty text contributes
neither its text nor a separator, and the nonempty results appear in
submission order. -/
theorem c9_empty_results_omitted (env : Env) (cfg : Config) (order : List Nat) (s : St)
    (ts : List String)
    (hcons : FS.read s.fs (consolidatedPath cfg) = none)
    (hg : gatherResults (runTasks env cfg (eligibleFiles s.fs cfg) order s).2
        (List.range (eligibleFiles s.fs cfg).length) = Except.ok ts) :
    (mainGather env cfg order s).2 = Except.ok (sjoin "\n\n" ts)
    ∧ "" ∉ ts := by
  constructor
  · unfold mainGather
    rw [hcons, hg]
  · exact gatherResults_no_empty _ ts hg

/-- C9 witness: the two-file batch where the second task produced the
empty text; the gathered list is just the first text. -/
theorem c9_witness :
    (mainGather envE cfgA [0, 1] sAB).2 = Except.ok (sjoin "\n\n" ["t:w:A"])
    ∧ "" ∉ ["t:w:A"] :=
  c9_empty_results_omitted envE cfgA [0, 1] sAB ["t:w:A"] rfl rfl

/-- C8: lifecycle of the Normalized Audio.  On the conversion path (cache
miss), the Normalizer writes the wav next to the input and changes nothing
else: the input file still holds its original content and every other path
is untouched.  After a successful process_file run through the conversion
path, the wav intermediate has been deleted while the input file is still
intact.  The two inequalities are facts of the actual path shapes
(the wav path differs from the input file, and the input file from its wav
cache key) and are discharged by computation at any concrete input. -/
theorem c8_normalized_audio_lifecycle (env : Env) (cfg : Config) (s : St)
    (f a w : String)
    (hread : FS.read s.fs f = some a)
    (hconv : env.convert a = some w)
    (hmiss : FS.read s.fs (srcCachePath cfg f) = none)
    (hne1 : f ≠ wavPath f)
    (hne3 : f ≠ wavCachePath cfg f) :
    convert_m4a_to_wav env s f
      = ({ s with
            fs := FS.write s.fs (wavPath f) w,
            converted := s.converted ++ [f] }, Except.ok (wavPath f))
    ∧ FS.read (convert_m4a_to_wav env s f).1.fs f = some a
    ∧ (∀ q, q ≠ wavPath f →
        FS.read (convert_m4a_to_wav env s f).1.fs q = FS.read s.fs q)
    ∧ (∀ t, (process_file env cfg s f).2 = Except.ok t →
        FS.read (process_file env cfg s f).1.fs (wavPath f) = none
        ∧ FS.read (process_file env cfg s f).1.fs f = some a) := by
  have hcv : convert_m4a_to_wav env s f
      = ({ s with
            fs := FS.write s.fs (wavPath f) w,
            converted := s.converted ++ [f] }, Except.ok (wavPath f)) := by
    unfold convert_m4a_to_wav
    dsimp only
    rw [hread]
    dsimp only
    rw [hconv]
  refine ⟨hcv, ?_, ?_, ?_⟩
  · rw [hcv]
    dsimp only
    rw [FS.read_write_ne _ _ hne1]
    exact hread
  · intro q hq
    rw [hcv]
    dsimp only
    exact FS.read_write_ne _ _ hq
  · intro t hok
    rcases process_file_spec env cfg s f with
      ⟨t0, h1, he⟩ | ⟨h1, h2, he⟩ | ⟨a0, h1, h2, h3, he⟩ | ⟨a0, w0, t0, h1, h2, h3, h4, he⟩
      | ⟨a0, w0, h1, h2, h3, h4, h5, he⟩ | ⟨a0, w0, t0, h1, h2, h3, h4, h5, he⟩
    · rw [h1] at hmiss
      exact absurd hmiss (by simp)
    · rw [h2] at hread
      exact absurd hread (by simp)
    · rw [hread] at h2
      injection h2 with h2b
      subst h2b
      rw [h3] at hconv
      exact absurd hconv (by simp)
    · rw [he]
      dsimp only
      refine ⟨FS.read_remove_self _ _, ?_⟩
      rw [FS.read_remove_ne _ hne1, FS.read_write_ne _ _ hne1]
      exact hread
    · rw [he] at hok
      exact absurd hok (by simp)
    · rw [he]
      dsimp only
      refine ⟨FS.read_remove_self _ _, ?_⟩
      rw [FS.read_remove_ne _ hne1, FS.read_write_ne _ _ hne3, FS.read_write_ne _ _ hne1]
      exact hread

/-- C8 witness: the concrete one-file conversion path. -/
theorem c8_witness :
    convert_m4a_to_wav envA sA "./incoming_audio/voice.m4a"
      = ({ sA with
            fs := FS.write sA.fs (wavPath "./incoming_audio/voice.m4a") "w:A",
            converted := sA.converted ++ ["./incoming_audio/voice.m4a"] },
         Except.ok (wavPath "./incoming_audio/voice.m4a"))
    ∧ FS.read (convert_m4a_to_wav envA sA "./incoming_audio/voice.m4a").1.fs
        "./incoming_audio/voice.m4a" = some "A"
    ∧ (∀ q, q ≠ wavPath "./incoming_audio/voice.m4a" →
        FS.read (convert_m4a_to_wav envA sA "./incoming_audio/voice.m4a").1.fs q
          = FS.read sA.fs q)
    ∧ (∀ t, (process_file envA cfgA sA "./incoming_audio/voice.m4a").2 = Except.ok t →
        FS.read (process_file envA cfgA sA "./incoming_audio/voice.m4a").1.fs
            (wavPath "./incoming_audio/voice.m4a") = none
        ∧ FS.read (process_file envA cfgA sA "./incoming_audio/voice.m4a").1.fs
            "./incoming_audio/voice.m4a" = some "A") :=
  c8_normalized_audio_lifecycle envA cfgA sA "./incoming_audio/voice.m4a" "A" "w:A"
    rfl rfl rfl (by decide) (by decide)

/-- C6: failure isolation.  If the Transcription Client failed for one of
the batch's tasks, the whole run exits with an error in exactly the state
the tasks left behind: the Summarizer is never invoked (its log is
unchanged, so no Summary Document is produced), no cleanup happens (every
pre-existing file other than the transient wav intermediates is still on
disk with its content, which covers the input files), and for every task
that succeeded its cache entry (under the key that task used) is on disk
holding that task's text.  The path hypothesis says the cache keys never
collide with a wav intermediate path, which holds for the actual layout
(cache keys end in .txt inside the intermediate directory, wavs end in
.wav inside the incoming directory) and is discharged by computation. -/
theorem c6_transcription_failure_aborts (env : Env) (cfg : Config) (order : List Nat)
    (s : St)
    (hcons : FS.read s.fs (consolidatedPath cfg) = none)
    (hfail : ∃ i ∈ List.range (eligibleFiles s.fs cfg).length,
      lookupResult (runTasks env cfg (eligibleFiles s.fs cfg) order s).2 i
        = some (Except.error Err.transcriptionError))
    (hp : ∀ f ∈ eligibleFiles s.fs cfg, ∀ g ∈ eligibleFiles s.fs cfg,
      srcCachePath cfg f ≠ wavPath g ∧ wavCachePath cfg f ≠ wavPath g) :
    (∃ e, mainRun env cfg order s
        = ((runTasks env cfg (eligibleFiles s.fs cfg) order s).1, Except.error e))
    ∧ (runTasks env cfg (eligibleFiles s.fs cfg) order s).1.summarized = s.summarized
    ∧ (∀ p c, FS.read s.fs p = some c →
        (∀ f ∈ eligibleFiles s.fs cfg, p ≠ wavPath f) →
        FS.read (runTasks env cfg (eligibleFiles s.fs cfg) order s).1.fs p = some c)
    ∧ (∀ i ∈ List.range (eligibleFiles s.fs cfg).length, ∀ t f,
        lookupResult (runTasks env cfg (eligibleFiles s.fs cfg) order s).2 i
          = some (Except.ok t) →
        (eligibleFiles s.fs cfg)[i]? = some f →
        FS.read (runTasks env cfg (eligibleFiles s.fs cfg) order s).1.fs
            (srcCachePath cfg f) = some t
        ∨ FS.read (runTasks env cfg (eligibleFiles s.fs cfg) order s).1.fs
            (wavCachePath cfg f) = some t) := by
  obtain ⟨i, hi, hl⟩ := hfail
  obtain ⟨e2, he2⟩ := gatherResults_error_of_mem _ hi hl
  have hgather : mainGather env cfg order s
      = ((runTasks env cfg (eligibleFiles s.fs cfg) order s).1, Except.error e2) := by
    unfold mainGather
    rw [hcons, he2]
  refine ⟨⟨e2, ?_⟩, runTasks_summarized env cfg _ order s, ?_, ?_⟩
  · unfold mainRun
    rw [hgather]
  · intro p c hpc hnw
    exact runTasks_frame_some hnw order s hpc
  · intro i2 _ t f hl2 hf2
    exact runTasks_cache_inv hp order s i2 t f hl2 hf2

/-- C6 witness: two files where the second transcription raises; the first
file's cache entry survives, the inputs survive, no summary happens. -/
theorem c6_witness :
    (∃ e, mainRun envF cfgA [0, 1] sAB
        = ((runTasks envF cfgA (eligibleFiles sAB.fs cfgA) [0, 1] sAB).1, Except.error e))
    ∧ (runTasks envF cfgA (eligibleFiles sAB.fs cfgA) [0, 1] sAB).1.summarized
        = sAB.summarized
    ∧ (∀ p c, FS.read sAB.fs p = some c →
        (∀ f ∈ eligibleFiles sAB.fs cfgA, p ≠ wavPath f) →
        FS.read (runTasks envF cfgA (eligibleFiles sAB.fs cfgA) [0, 1] sAB).1.fs p = some c)
    ∧ (∀ i ∈ List.range (eligibleFiles sAB.fs cfgA).length, ∀ t f,
        lookupResult (runTasks envF cfgA (eligibleFiles sAB.fs cfgA) [0, 1] sAB).2 i
          = some (Except.ok t) →
        (eligibleFiles sAB.fs cfgA)[i]? = some f →
        FS.read (runTasks envF cfgA (eligibleFiles sAB.fs cfgA) [0, 1] sAB).1.fs
            (srcCachePath cfgA f) = some t
        ∨ FS.read (runTasks envF cfgA (eligibleFiles sAB.fs cfgA) [0, 1] sAB).1.fs
            (wavCachePath cfgA f) = some t) :=
  c6_transcription_failure_aborts envF cfgA [0, 1] sAB rfl (by decide) (by decide)

/-- C10: the finalizer's clearing loop over a directory removes only
immediate regular files of that directory.  A path inside a subdirectory
(of the form d/m/r) reads exactly the same after the loop; more generally
the loop never creates or modifies a file (anything readable afterwards
was readable before with the same content) and never resurrects an absent
path, so subdirectories and their contents are left unchanged. -/
theorem c10_clear_only_regular_files (fs : FS) (d : String) :
    (∀ m r, FS.read (clearDir fs d) (pathJoin d (pathJoin m r))
      = FS.read fs (pathJoin d (pathJoin m r)))
    ∧ (∀ p c, FS.read (clearDir fs d) p = some c → FS.read fs p = some c)
    ∧ (∀ p, FS.read fs p = none → FS.read (clearDir fs d) p = none) := by
  refine ⟨?_, ?_, ?_⟩
  · intro m r
    apply clearDir_frame
    intro n hn heq
    have hshape := listdir_shape hn
    have hinj : pathJoin m r = n := pathJoin_inj heq
    have hmem : '/' ∈ n.data := by
      rw [← hinj, pathJoin_data]
      refine List.mem_append_left _ ?_
      rw [String.data_append]
      exact List.mem_append_right _ (by decide)
    have := hshape '/' hmem
    simp at this
  · intro p c h
    exact clearDir_some h
  · intro p h
    exact clearDir_none h

/-- C10 witness: clearing a directory holding one top-level file and one
file inside a subdirectory removes the former and keeps the latter. -/
theorem c10_witness :
    FS.read (clearDir [("./incoming_audio/sub/x.m4a", "D"), ("./incoming_audio/y.m4a", "Y")]
        "./incoming_audio") (pathJoin "./incoming_audio" (pathJoin "sub" "x.m4a"))
      = FS.read [("./incoming_audio/sub/x.m4a", "D"), ("./incoming_audio/y.m4a", "Y")]
        (pathJoin "./incoming_audio" (pathJoin "sub" "x.m4a"))
    ∧ (∀ p c, FS.read (clearDir [("./incoming_audio/sub/x.m4a", "D"),
        ("./incoming_audio/y.m4a", "Y")] "./incoming_audio") p = some c →
        FS.read [("./incoming_audio/sub/x.m4a", "D"), ("./incoming_audio/y.m4a", "Y")] p
          = some c) :=
  ⟨(c10_clear_only_regular_files [("./incoming_audio/sub/x.m4a", "D"),
      ("./incoming_audio/y.m4a", "Y")] "./incoming_audio").1 "sub" "x.m4a",
   fun p c h => (c10_clear_only_regular_files [("./incoming_audio/sub/x.m4a", "D"),
      ("./incoming_audio/y.m4a", "Y")] "./incoming_audio").2.1 p c h⟩

theorem transcript_ne_summary (cfg : Config) :
    transcriptFilePath cfg ≠ summaryActionFilePath cfg := by
  intro h
  have h1 := pathJoin_inj h
  have h2 := string_append_left_cancel h1
  exact absurd h2 (by decide)

/-- C7: destructive finalization.  Given a batch phase that returned
consolidated content C, the part after it runs only if the Summarizer
succeeds: when the Summarizer raises, the whole run exits with the summary
error and the filesystem exactly as the batch phase left it (no move, no
deletion).  When the Summarizer returns R, the run succeeds and afterwards
the transcript file holds C at its timestamped path, the summary file
holds the stripped R, the consolidated transcript is gone from its working
path, the incoming and the intermediate directory contain no regular file
at top level, and no file other than the two timestamped artifacts came
into existence in the output directory.  The underDir hypotheses say the
final artifact paths do not sit inside the two working directories, which
holds for the actual configuration and is discharged by computation. -/
theorem c7_finalizer_contract (env : Env) (cfg : Config) (order : List Nat)
    (s s1 : St) (C : String)
    (hg : mainGather env cfg order s = (s1, Except.ok C))
    (hA : underDir cfg.incoming (transcriptFilePath cfg) = false)
    (hB : underDir cfg.intermediate (transcriptFilePath cfg) = false)
    (hC2 : underDir cfg.incoming (summaryActionFilePath cfg) = false)
    (hD : underDir cfg.intermediate (summaryActionFilePath cfg) = false) :
    (env.summarize (promptFor C) = none →
      mainRun env cfg order s
        = ({ s1 with summarized := s1.summarized ++ [C] },
           Except.error Err.summaryError))
    ∧ (∀ R, env.summarize (promptFor C) = some R →
        (mainRun env cfg order s).2 = Except.ok ()
        ∧ FS.read (mainRun env cfg order s).1.fs (transcriptFilePath cfg) = some C
        ∧ FS.read (mainRun env cfg order s).1.fs (summaryActionFilePath cfg)
            = some (pyStrip R)
        ∧ FS.read (mainRun env cfg order s).1.fs (consolidatedPath cfg) = none
        ∧ (∀ n, n ≠ "" → (∀ x ∈ n.data, (x != '/') = true) →
            FS.read (mainRun env cfg order s).1.fs (pathJoin cfg.incoming n) = none)
        ∧ (∀ n, n ≠ "" → (∀ x ∈ n.data, (x != '/') = true) →
            FS.read (mainRun env cfg order s).1.fs (pathJoin cfg.intermediate n) = none)
        ∧ (∀ p, underDir cfg.output p = true → underDir cfg.incoming p = false →
            underDir cfg.intermediate p = false →
            p ≠ transcriptFilePath cfg → p ≠ summaryActionFilePath cfg →
            (∀ f ∈ eligibleFiles s.fs cfg, p ≠ wavPath f ∧ p ≠ wavCachePath cfg f) →
            FS.read s.fs p = none →
            FS.read (mainRun env cfg order s).1.fs p = none)) := by
  have hcons1 : FS.read s1.fs (consolidatedPath cfg) = some C :=
    mainGather_ok_consolidated hg
  have hCPunder : underDir cfg.intermediate (consolidatedPath cfg) = true :=
    underDir_join cfg.intermediate "total_transcript.md"
  have hCPneTF : consolidatedPath cfg ≠ transcriptFilePath cfg :=
    ne_of_under_not_under hCPunder hB
  have hCPneSAF : consolidatedPath cfg ≠ summaryActionFilePath cfg :=
    ne_of_under_not_under hCPunder hD
  have hTFneSAF : transcriptFilePath cfg ≠ summaryActionFilePath cfg :=
    transcript_ne_summary cfg
  constructor
  · intro hsumnone
    unfold mainRun
    rw [hg]
    dsimp only
    unfold generate_summary_and_action
    dsimp only
    rw [hsumnone]
  · intro R hsum
    have hreadc : FS.read (FS.write s1.fs (summaryActionFilePath cfg) (pyStrip R))
        (consolidatedPath cfg) = some C := by
      rw [FS.read_write_ne _ _ hCPneSAF]
      exact hcons1
    have hrun : mainRun env cfg order s
        = finalizeFrom cfg { s1 with summarized := s1.summarized ++ [C] } (pyStrip R) := by
      unfold mainRun
      rw [hg]
      dsimp only
      unfold generate_summary_and_action
      dsimp only
      rw [hsum]
    have hfin : finalizeFrom cfg { s1 with summarized := s1.summarized ++ [C] } (pyStrip R)
        = ({ s1 with
              summarized := s1.summarized ++ [C],
              fs := clearDir
                (clearDir
                  (FS.remove
                    (FS.write (FS.write s1.fs (summaryActionFilePath cfg) (pyStrip R))
                      (transcriptFilePath cfg) C)
                    (consolidatedPath cfg))
                  cfg.incoming)
                cfg.intermediate },
           Except.ok ()) := by
      unfold finalizeFrom
      dsimp only
      rw [hreadc]
    rw [hrun, hfin]
    dsimp only
    refine ⟨rfl, ?_, ?_, ?_, ?_, ?_, ?_⟩
    · rw [clearDir_frame, clearDir_frame]
      · rw [FS.read_remove_ne _ (Ne.symm hCPneTF), FS.read_write_self]
      · intro n hn
        exact Ne.symm (ne_of_under_not_under (underDir_join cfg.incoming n) hA)
      · intro n hn
        exact Ne.symm (ne_of_under_not_under (underDir_join cfg.intermediate n) hB)
    · rw [clearDir_frame, clearDir_frame]
      · rw [FS.read_remove_ne _ (Ne.symm hCPneSAF), FS.read_write_ne _ _ (Ne.symm hTFneSAF),
          FS.read_write_self]
      · intro n hn
        exact Ne.symm (ne_of_under_not_under (underDir_join cfg.incoming n) hC2)
      · intro n hn
        exact Ne.symm (ne_of_under_not_under (underDir_join cfg.intermediate n) hD)
    · exact clearDir_none (clearDir_none (FS.read_remove_self _ _))
    · intro n hne hslash
      have hdata : n.data ≠ [] := fun hx => hne (String.ext hx)
      refine clearDir_none ?_
      cases hx : FS.read (FS.remove
          (FS.write (FS.write s1.fs (summaryActionFilePath cfg) (pyStrip R))
            (transcriptFilePath cfg) C)
          (consolidatedPath cfg)) (pathJoin cfg.incoming n) with
      | none => exact clearDir_none hx
      | some c => exact clearDir_kills (mem_listdir_of_read hx hdata hslash)
    · intro n hne hslash
      have hdata : n.data ≠ [] := fun hx => hne (String.ext hx)
      cases hx : FS.read (clearDir (FS.remove
          (FS.write (FS.write s1.fs (summaryActionFilePath cfg) (pyStrip R))
            (transcriptFilePath cfg) C)
          (consolidatedPath cfg)) cfg.incoming) (pathJoin cfg.intermediate n) with
      | none => exact clearDir_none hx
      | some c => exact clearDir_kills (mem_listdir_of_read hx hdata hslash)
    · intro p hpo hpi hpm hpt hpsaf hwav h0
      have hpCP : p ≠ consolidatedPath cfg :=
        Ne.symm (ne_of_under_not_under hCPunder hpm)
      have hbase : FS.read s1.fs p = none := by
        rcases mainGather_ok_cases hg with ⟨hc, hs1⟩ | ⟨hc, hs1⟩
        · rw [hs1]
          exact h0
        · rw [hs1]
          dsimp only
          rw [FS.read_write_ne _ _ hpCP]
          exact runTasks_frame_none (fun f hf => (hwav f hf).1)
            (fun f hf => (hwav f hf).2) order s h0
      refine clearDir_none (clearDir_none ?_)
      rw [FS.read_remove_ne _ hpCP, FS.read_write_ne _ _ hpt, FS.read_write_ne _ _ hpsaf]
      exact hbase

/-- C7 witness: the concrete one-file run through summarizer success. -/
theorem c7_witness :
    (mainRun envA cfgA [0] sA).2 = Except.ok ()
    ∧ FS.read (mainRun envA cfgA [0] sA).1.fs (transcriptFilePath cfgA) = some "t:w:A"
    ∧ FS.read (mainRun envA cfgA [0] sA).1.fs (summaryActionFilePath cfgA)
        = some (pyStrip " SUM ")
    ∧ FS.read (mainRun envA cfgA [0] sA).1.fs (consolidatedPath cfgA) = none
    ∧ (∀ n, n ≠ "" → (∀ x ∈ n.data, (x != '/') = true) →
        FS.read (mainRun envA cfgA [0] sA).1.fs (pathJoin cfgA.incoming n) = none)
    ∧ (∀ n, n ≠ "" → (∀ x ∈ n.data, (x != '/') = true) →
        FS.read (mainRun envA cfgA [0] sA).1.fs (pathJoin cfgA.intermediate n) = none)
    ∧ (∀ p, underDir cfgA.output p = true → underDir cfgA.incoming p = false →
        underDir cfgA.intermediate p = false →
        p ≠ transcriptFilePath cfgA → p ≠ summaryActionFilePath cfgA →
        (∀ f ∈ eligibleFiles sA.fs cfgA, p ≠ wavPath f ∧ p ≠ wavCachePath cfgA f) →
        FS.read sA.fs p = none →
        FS.read (mainRun envA cfgA [0] sA).1.fs p = none) :=
  (c7_finalizer_contract envA cfgA [0] sA s1A "t:w:A" rfl rfl rfl rfl rfl).2 " SUM " rfl
